import Mathlib

/-
  Verification of the per-owner encrypted record store of
  comovamiglucosa (src/app/db.py, src/app/security.py,
  src/app/exporters.py, and the share-bundle reader of
  src/streamlit_app.py).

  Modelling conventions:
  - Fernet authenticated encryption is modelled symbolically: a token
    remembers the key it was produced under together with the plaintext,
    and a separate constructor stands for tampered or corrupted blobs.
    Decryption succeeds exactly when the token is intact and the key
    matches, mirroring the authenticated-encryption guarantee of Fernet
    (InvalidToken on wrong key or tampering).
  - JSON payloads are association lists of flat JSON values; the
    json.dumps / json.loads serializer is the identity on this model
    (the spec requires the serializer to round-trip all payloads).
  - PBKDF2-HMAC-SHA256 (security.hash_pin) is modelled as an ideal,
    collision-free KDF: the digest is a symbolic pair of its inputs.
  - SQLite tables are lists of rows; the UNIQUE(owner, record_type,
    recorded_at) constraint raises uniqueViolation, matching
    IntegrityError; AUTOINCREMENT ids come from a counter.
  - datetime.utcnow timestamps used in share bundles are integers
    (seconds); timedelta(hours=h) is 3600 * h.
  - Python truthiness of optional string arguments (the `if owner:` and
    `if record_type:` guards of db.py) is modelled by `truthy`, which is
    false both for None and for the empty string.
-/

namespace GlucosaStore

/-- Symbolic model of a Fernet token: either a well-formed token produced
under some key, or a tampered / corrupted blob. -/
inductive Ciphertext (α : Type) where
  | token (key : Nat) (plain : α)
  | garbage (noise : Nat)
deriving DecidableEq

/-- cryptography.fernet.InvalidToken, the authentication error raised on
wrong-key or tampered decryption. -/
inductive AuthError where
  | invalidToken
deriving DecidableEq

/-- Fernet.encrypt: produces a token bound to the key. -/
def encrypt {α : Type} (key : Nat) (plain : α) : Ciphertext α :=
  Ciphertext.token key plain

/-- Fernet.decrypt: succeeds iff the token is intact and was produced
under the same key, otherwise raises InvalidToken. -/
def decrypt {α : Type} (key : Nat) (c : Ciphertext α) : Except AuthError α :=
  match c with
  | Ciphertext.token k p => if k = key then Except.ok p else Except.error AuthError.invalidToken
  | Ciphertext.garbage _ => Except.error AuthError.invalidToken

/-- Flat JSON values appearing as payload fields (numbers, strings,
booleans, null). -/
inductive Json where
  | null
  | bool (b : Bool)
  | num (n : Int)
  | str (s : String)
deriving DecidableEq

/-- A JSON object payload: an ordered association list of fields, as a
Python dict serialized by json.dumps. -/
abbrev Payload := List (String × Json)

/-- One row of the records table (db.py schema: id, owner, record_type,
recorded_at, payload_encrypted, created_at, updated_at). -/
structure StoredRecord where
  id : Nat
  owner : String
  record_type : String
  recorded_at : String
  payload_encrypted : Ciphertext Payload
  created_at : String
  updated_at : String
deriving DecidableEq

/-- Database state: the records table, the settings table, and the
AUTOINCREMENT counter for records.id. -/
structure DB where
  records : List StoredRecord
  settings : List (String × String)
  nextId : Nat
deriving DecidableEq

/-- Python truthiness of an optional string: None and the empty string
are falsy, every other string is truthy.  db.py guards the optional
owner and record_type arguments with plain `if owner:` tests. -/
def truthy : Option String → Bool
  | none => false
  | some s => !(s == "")

/-- db._scoped_key: `if owner: return f"user:{owner}:{key}"; return key`. -/
def scoped_key (key : String) (owner : Option String) : String :=
  if truthy owner then "user:" ++ owner.getD "" ++ ":" ++ key else key

/-- INSERT ... ON CONFLICT(key) DO UPDATE on the settings table: replace
the value of an existing key in place, otherwise append the new pair. -/
def upsertSetting : List (String × String) → String → String → List (String × String)
  | [], k, v => [(k, v)]
  | kv :: rest, k, v =>
    if kv.1 == k then (k, v) :: rest else kv :: upsertSetting rest k v

/-- db.set_setting: upserts the value at the scoped key. -/
def set_setting (key value : String) (owner : Option String) (db : DB) : DB :=
  { db with settings := upsertSetting db.settings (scoped_key key owner) value }

/-- db.get_setting: SELECT value FROM settings WHERE key = scoped, with a
default when the row is absent. -/
def get_setting (key : String) (default : Option String) (owner : Option String)
    (db : DB) : Option String :=
  match db.settings.find? (fun p => p.1 == scoped_key key owner) with
  | none => default
  | some p => some p.2

/-- db.has_duplicate: SELECT id FROM records WHERE owner = ? AND
record_type = ? AND recorded_at = ? [AND id != exclude_id]. -/
def has_duplicate (db : DB) (owner record_type recorded_at : String)
    (exclude_id : Option Nat) : Bool :=
  db.records.any fun r =>
    r.owner == owner && r.record_type == record_type && r.recorded_at == recorded_at &&
      (match exclude_id with
       | none => true
       | some i => r.id != i)

/-- sqlite3.IntegrityError raised by the UNIQUE(owner, record_type,
recorded_at) constraint. -/
inductive DBError where
  | uniqueViolation
deriving DecidableEq

/-- db.save_record: encrypts the payload with the supplied Fernet key and
either INSERTs a fresh row (record_id = None, returning lastrowid) or
UPDATEs the row with the given id.  The UNIQUE constraint on
(owner, record_type, recorded_at) raises IntegrityError; an UPDATE whose
id matches no row touches nothing and still returns record_id. -/
def save_record (owner record_type recorded_at : String) (payload : Payload)
    (key : Nat) (record_id : Option Nat) (now : String) (db : DB) :
    Except DBError (DB × Nat) :=
  let encrypted := encrypt key payload
  match record_id with
  | none =>
    if db.records.any (fun r =>
        r.owner == owner && r.record_type == record_type && r.recorded_at == recorded_at) then
      Except.error DBError.uniqueViolation
    else
      Except.ok
        ({ db with
            records := db.records ++
              [{ id := db.nextId, owner := owner, record_type := record_type,
                 recorded_at := recorded_at, payload_encrypted := encrypted,
                 created_at := now, updated_at := now }],
            nextId := db.nextId + 1 },
         db.nextId)
  | some rid =>
    if db.records.any (fun r => r.id == rid) then
      if db.records.any (fun r =>
          r.id != rid && r.owner == owner && r.record_type == record_type &&
            r.recorded_at == recorded_at) then
        Except.error DBError.uniqueViolation
      else
        Except.ok
          ({ db with
              records := db.records.map fun r =>
                if r.id == rid then
                  { r with owner := owner, record_type := record_type,
                           recorded_at := recorded_at, payload_encrypted := encrypted,
                           updated_at := now }
                else r },
           rid)
    else
      Except.ok (db, rid)

/-- db.delete_record: DELETE FROM records WHERE id = ? [AND owner = ?];
the owner clause is added only when the owner argument is truthy. -/
def delete_record (record_id : Nat) (owner : Option String) (db : DB) : DB :=
  { db with
      records := db.records.filter fun r =>
        !(r.id == record_id && (!truthy owner || r.owner == owner.getD "")) }

/-- The optional record_type filter of db.load_records: applied only when
the argument is truthy, as in the source. -/
def matchesType (record_type : Option String) (r : StoredRecord) : Bool :=
  if truthy record_type then r.record_type == record_type.getD "" else true

/-- One decrypted row as assembled by db.load_records: the cleartext
columns together with the decrypted payload fields. -/
structure LoadedRecord where
  id : Nat
  owner : String
  record_type : String
  recorded_at : String
  payload : Payload
deriving DecidableEq

/-- Assemble the dict returned for one row of load_records. -/
def mkLoaded (r : StoredRecord) (p : Payload) : LoadedRecord :=
  { id := r.id, owner := r.owner, record_type := r.record_type,
    recorded_at := r.recorded_at, payload := p }

/-- The row loop of db.load_records: decrypt each fetched row in order;
the first failing decryption aborts the whole call with the exception,
returning no rows at all. -/
def decryptRows (key : Nat) : List StoredRecord → Except AuthError (List LoadedRecord)
  | [] => Except.ok []
  | r :: rs =>
    match decrypt key r.payload_encrypted with
    | Except.error e => Except.error e
    | Except.ok p =>
      match decryptRows key rs with
      | Except.error e => Except.error e
      | Except.ok rest => Except.ok (mkLoaded r p :: rest)

/-- db.load_records: SELECT ... WHERE owner = ? [AND record_type = ?]
ORDER BY recorded_at DESC, then decrypt every row. -/
def load_records (owner : String) (key : Nat) (record_type : Option String)
    (db : DB) : Except AuthError (List LoadedRecord) :=
  decryptRows key
    ((db.records.filter fun r => r.owner == owner && matchesType record_type r).mergeSort
      fun a b => decide (b.recorded_at ≤ a.recorded_at))

/-- One row of the legacy (pre-migration) records table, which lacks the
owner column. -/
structure LegacyRecord where
  id : Nat
  record_type : String
  recorded_at : String
  payload_encrypted : Ciphertext Payload
  created_at : String
  updated_at : String
deriving DecidableEq

/-- The three shapes the records table can have at startup: not created
yet, the legacy single-tenant layout, or the owner-scoped layout. -/
inductive RecordsTable where
  | absent
  | legacy (rows : List LegacyRecord)
  | current (rows : List StoredRecord)
deriving DecidableEq

/-- The SELECT id, 'legacy', record_type, recorded_at, payload_encrypted,
created_at, updated_at used by the init_db table-swap migration. -/
def migrateLegacyRow (r : LegacyRecord) : StoredRecord :=
  { id := r.id, owner := "legacy", record_type := r.record_type,
    recorded_at := r.recorded_at, payload_encrypted := r.payload_encrypted,
    created_at := r.created_at, updated_at := r.updated_at }

/-- db.init_db restricted to the records table: CREATE TABLE IF NOT
EXISTS (no-op on an existing table), then, when the owner column is
missing, copy every row into a fresh owner-scoped table with owner
backfilled as the sentinel value, drop the old table and rename. -/
def init_db : RecordsTable → RecordsTable
  | RecordsTable.absent => RecordsTable.current []
  | RecordsTable.legacy rows => RecordsTable.current (rows.map migrateLegacyRow)
  | RecordsTable.current rows => RecordsTable.current rows

/-- The PBKDF2-HMAC-SHA256 digest of security.hash_pin, modelled as an
ideal (collision-free) KDF: the digest is a symbolic pair of the inputs
that produced it. -/
structure PinHash where
  pin : String
  salt : String
deriving DecidableEq

/-- security.hash_pin: pbkdf2_hmac("sha256", pin, salt_bytes, 200000),
deterministic in (pin, salt). -/
def hash_pin (pin salt : String) : PinHash :=
  { pin := pin, salt := salt }

/-- hmac.compare_digest: constant-time comparison, semantically equality. -/
def compare_digest (a b : PinHash) : Bool := a == b

/-- security.verify_pin: recompute the hash and compare. -/
def verify_pin (pin salt : String) (expected_hash : PinHash) : Bool :=
  compare_digest (hash_pin pin salt) expected_hash

/-- The plaintext wrapped inside a share token by
exporters.build_encrypted_share_payload: the expiry instant and the
structured data. -/
structure SharePayload where
  expires_at : Int
  data : Payload
deriving DecidableEq

/-- exporters.build_encrypted_share_payload: generate a fresh key (passed
in here, as randomness is external), set expires_at := utcnow +
timedelta(hours=valid_hours), and encrypt the wrapped payload under the
fresh key.  Timestamps are seconds, so one hour is 3600. -/
def build_encrypted_share_payload (data : Payload) (valid_hours : Int)
    (now : Int) (freshKey : Nat) : Nat × Ciphertext SharePayload :=
  (freshKey, encrypt freshKey { expires_at := now + 3600 * valid_hours, data := data })

/-- The two failure modes of the share-bundle import handler in
streamlit_app.py: decryption failure, and expiry detected after a
successful decrypt. -/
inductive ShareOpenError where
  | decryptFailed
  | expired
deriving DecidableEq

/-- The share-bundle import handler of streamlit_app.py: decrypt the
token with the supplied key (any failure is reported as a decryption
error), then refuse the payload when utcnow > expires_at, and otherwise
hand back the wrapped data. -/
def open_share_bundle (key : Nat) (tok : Ciphertext SharePayload) (now : Int) :
    Except ShareOpenError Payload :=
  match decrypt key tok with
  | Except.error _ => Except.error ShareOpenError.decryptFailed
  | Except.ok payload =>
    if payload.expires_at < now then Except.error ShareOpenError.expired
    else Except.ok payload.data

/-- If the load loop succeeds, every returned row comes from a fetched
row that decrypted successfully. -/
theorem decryptRows_ok_mem {key : Nat} {l : List StoredRecord} {rows : List LoadedRecord}
    (h : decryptRows key l = Except.ok rows) :
    ∀ x ∈ rows, ∃ r ∈ l, ∃ p, decrypt key r.payload_encrypted = Except.ok p ∧ x = mkLoaded r p := by
  induction l generalizing rows with
  | nil =>
    simp only [decryptRows] at h
    injection h with h'
    subst h'
    intro x hx
    cases hx
  | cons r rs ih =>
    cases hdec : decrypt key r.payload_encrypted with
    | error e => simp [decryptRows, hdec] at h
    | ok p =>
      cases hrec : decryptRows key rs with
      | error e => simp [decryptRows, hdec, hrec] at h
      | ok rest =>
        simp only [decryptRows, hdec, hrec] at h
        injection h with h'
        subst h'
        intro x hx
        rcases List.mem_cons.mp hx with hx1 | hx2
        · exact ⟨r, List.mem_cons_self r rs, p, hdec, hx1⟩
        · obtain ⟨r', hr', p', hp', hx'⟩ := ih hrec x hx2
          exact ⟨r', List.mem_cons_of_mem r hr', p', hp', hx'⟩

/-- If the load loop succeeds, every fetched row that decrypts appears in
the result. -/
theorem decryptRows_mem_ok {key : Nat} {l : List StoredRecord} {rows : List LoadedRecord}
    (h : decryptRows key l = Except.ok rows) {r : StoredRecord} (hr : r ∈ l)
    {p : Payload} (hp : decrypt key r.payload_encrypted = Except.ok p) :
    mkLoaded r p ∈ rows := by
  induction l generalizing rows with
  | nil => cases hr
  | cons r0 rs ih =>
    cases hdec : decrypt key r0.payload_encrypted with
    | error e => simp [decryptRows, hdec] at h
    | ok p0 =>
      cases hrec : decryptRows key rs with
      | error e => simp [decryptRows, hdec, hrec] at h
      | ok rest =>
        simp only [decryptRows, hdec, hrec] at h
        injection h with h'
        subst h'
        rcases List.mem_cons.mp hr with hr1 | hr2
        · subst hr1
          have hpp : p = p0 := by
            rw [hp] at hdec
            injection hdec
          subst hpp
          exact List.mem_cons_self _ _
        · exact List.mem_cons_of_mem _ (ih hrec hr2)

/-- If every fetched row decrypts, the load loop succeeds. -/
theorem decryptRows_ok_of_all {key : Nat} {l : List StoredRecord}
    (h : ∀ r ∈ l, ∃ p, decrypt key r.payload_encrypted = Except.ok p) :
    ∃ rows, decryptRows key l = Except.ok rows := by
  induction l with
  | nil => exact ⟨[], rfl⟩
  | cons r rs ih =>
    obtain ⟨p, hp⟩ := h r (List.mem_cons_self r rs)
    obtain ⟨rest, hrest⟩ := ih fun s hs => h s (List.mem_cons_of_mem r hs)
    exact ⟨mkLoaded r p :: rest, by simp [decryptRows, hp, hrest]⟩

/-- If the load loop succeeds, every fetched row decrypted successfully:
a single failing row would have aborted the whole loop. -/
theorem decryptRows_all_ok {key : Nat} {l : List StoredRecord} {rows : List LoadedRecord}
    (h : decryptRows key l = Except.ok rows) :
    ∀ r ∈ l, ∃ p, decrypt key r.payload_encrypted = Except.ok p := by
  induction l generalizing rows with
  | nil => intro r hr; cases hr
  | cons r0 rs ih =>
    cases hdec : decrypt key r0.payload_encrypted with
    | error e => simp [decryptRows, hdec] at h
    | ok p0 =>
      cases hrec : decryptRows key rs with
      | error e => simp [decryptRows, hdec, hrec] at h
      | ok rest =>
        intro r hr
        rcases List.mem_cons.mp hr with hr1 | hr2
        · subst hr1; exact ⟨p0, hdec⟩
        · exact ih hrec r hr2

/-- C1: load_records is owner-scoped.  For distinct owners A and B that
may both have rows in the records table, every row returned by
load_records(A, key) has owner column A and never belongs to B, with or
without a record_type filter. -/
theorem load_records_owner_isolation (db : DB) (A B : String) (key : Nat)
    (record_type : Option String) (rows : List LoadedRecord)
    (hAB : A ≠ B) (h : load_records A key record_type db = Except.ok rows) :
    ∀ x ∈ rows, x.owner = A ∧ x.owner ≠ B := by
  intro x hx
  have h' : decryptRows key
      ((db.records.filter fun r => r.owner == A && matchesType record_type r).mergeSort
        fun a b => decide (b.recorded_at ≤ a.recorded_at)) = Except.ok rows := h
  obtain ⟨r, hr, p, hp, hxe⟩ := decryptRows_ok_mem h' x hx
  have hrf : r ∈ db.records.filter fun r => r.owner == A && matchesType record_type r :=
    List.mem_mergeSort.mp hr
  have hcond := (List.mem_filter.mp hrf).2
  have hown : r.owner = A := by
    have h1 : (r.owner == A) = true := ((Bool.and_eq_true _ _).mp hcond).1
    exact beq_iff_eq.mp h1
  subst hxe
  refine ⟨hown, ?_⟩
  have : (mkLoaded r p).owner = A := hown
  rw [this]
  exact hAB

/-- Witness for C1 at a table holding rows of both alice and bob: the
single row load_records returns for alice has owner column alice, not
bob. -/
theorem load_records_owner_isolation_witness :
    ({ id := 1, owner := "alice", record_type := "glucose",
       recorded_at := "2024-01-01T08:00:00",
       payload := [("value_mg_dl", Json.num 90)] } : LoadedRecord).owner = "alice" ∧
    ({ id := 1, owner := "alice", record_type := "glucose",
       recorded_at := "2024-01-01T08:00:00",
       payload := [("value_mg_dl", Json.num 90)] } : LoadedRecord).owner ≠ "bob" :=
  load_records_owner_isolation
    { records :=
        [{ id := 1, owner := "alice", record_type := "glucose",
           recorded_at := "2024-01-01T08:00:00",
           payload_encrypted := Ciphertext.token 7 [("value_mg_dl", Json.num 90)],
           created_at := "c1", updated_at := "u1" },
         { id := 2, owner := "bob", record_type := "glucose",
           recorded_at := "2024-01-02T08:00:00",
           payload_encrypted := Ciphertext.token 9 [("value_mg_dl", Json.num 110)],
           created_at := "c2", updated_at := "u2" }],
      settings := [], nextId := 3 }
    "alice" "bob" 7 none
    [{ id := 1, owner := "alice", record_type := "glucose",
       recorded_at := "2024-01-01T08:00:00",
       payload := [("value_mg_dl", Json.num 90)] }]
    (by decide)
    (by simp [load_records, matchesType, truthy, decryptRows, decrypt, mkLoaded,
              List.mergeSort_singleton])
    { id := 1, owner := "alice", record_type := "glucose",
      recorded_at := "2024-01-01T08:00:00",
      payload := [("value_mg_dl", Json.num 90)] }
    (List.mem_singleton.mpr rfl)

/-- C3: a single row of the requested owner that cannot be decrypted
under the supplied key, whether encrypted under a different key or
tampered with, makes the whole load_records call fail with the
authentication error: no rows are returned, in particular never an empty
result. -/
theorem load_records_fails_on_undecryptable_row (db : DB) (owner : String) (key2 : Nat)
    (h : ∃ r ∈ db.records, r.owner = owner ∧
      ((∃ k1 p, k1 ≠ key2 ∧ r.payload_encrypted = Ciphertext.token k1 p) ∨
       (∃ n, r.payload_encrypted = Ciphertext.garbage n))) :
    load_records owner key2 none db = Except.error AuthError.invalidToken := by
  obtain ⟨r, hr, hown, hbad⟩ := h
  cases hres : load_records owner key2 none db with
  | ok rows =>
    exfalso
    have hres' : decryptRows key2
        ((db.records.filter fun s => s.owner == owner && matchesType none s).mergeSort
          fun a b => decide (b.recorded_at ≤ a.recorded_at)) = Except.ok rows := hres
    have hrf : r ∈ db.records.filter fun s => s.owner == owner && matchesType none s := by
      refine List.mem_filter.mpr ⟨hr, ?_⟩
      simp [matchesType, truthy, hown]
    have hrm : r ∈ (db.records.filter fun s => s.owner == owner && matchesType none s).mergeSort
        fun a b => decide (b.recorded_at ≤ a.recorded_at) := List.mem_mergeSort.mpr hrf
    obtain ⟨p, hp⟩ := decryptRows_all_ok hres' r hrm
    rcases hbad with ⟨k1, p1, hk, he⟩ | ⟨n, he⟩
    · rw [he] at hp; simp [decrypt, hk] at hp
    · rw [he] at hp; simp [decrypt] at hp
  | error e => cases e; rfl

/-- Witness for C3: a row encrypted under key 1 is loaded with key 2. -/
theorem load_records_fails_on_undecryptable_row_witness :
    load_records "p1" 2 none
      { records :=
          [{ id := 1, owner := "p1", record_type := "glucose",
             recorded_at := "2024-01-01T08:00:00",
             payload_encrypted := Ciphertext.token 1 [("value_mg_dl", Json.num 90)],
             created_at := "c", updated_at := "u" }],
        settings := [], nextId := 2 } = Except.error AuthError.invalidToken :=
  load_records_fails_on_undecryptable_row _ "p1" 2
    ⟨{ id := 1, owner := "p1", record_type := "glucose",
       recorded_at := "2024-01-01T08:00:00",
       payload_encrypted := Ciphertext.token 1 [("value_mg_dl", Json.num 90)],
       created_at := "c", updated_at := "u" },
     List.mem_singleton.mpr rfl, rfl,
     Or.inl ⟨1, [("value_mg_dl", Json.num 90)], by decide, rfl⟩⟩

/-- If some stored row of the owner passes the type filter, carries a
token under the supplied key, and every row of the owner decrypts under
that key, then load_records succeeds and returns that row decrypted. -/
theorem load_records_contains (db : DB) (owner : String) (key : Nat) (tf : Option String)
    (r : StoredRecord) (p : Payload)
    (hmem : r ∈ db.records) (hown : r.owner = owner) (htype : matchesType tf r = true)
    (hp : r.payload_encrypted = Ciphertext.token key p)
    (hall : ∀ s ∈ db.records, s.owner = owner →
      ∃ q, decrypt key s.payload_encrypted = Except.ok q) :
    ∃ rows, load_records owner key tf db = Except.ok rows ∧ mkLoaded r p ∈ rows := by
  have hallf : ∀ s ∈ (db.records.filter fun s => s.owner == owner && matchesType tf s).mergeSort
      (fun a b => decide (b.recorded_at ≤ a.recorded_at)),
      ∃ q, decrypt key s.payload_encrypted = Except.ok q := by
    intro s hs
    have hsf := List.mem_mergeSort.mp hs
    have hsm := (List.mem_filter.mp hsf).1
    have hcond := (List.mem_filter.mp hsf).2
    have hsw : s.owner = owner := beq_iff_eq.mp ((Bool.and_eq_true _ _).mp hcond).1
    exact hall s hsm hsw
  obtain ⟨rows, hrows⟩ := decryptRows_ok_of_all hallf
  refine ⟨rows, hrows, ?_⟩
  have hrf : r ∈ db.records.filter fun s => s.owner == owner && matchesType tf s :=
    List.mem_filter.mpr ⟨hmem, by simp [hown, htype]⟩
  have hrm : r ∈ (db.records.filter fun s => s.owner == owner && matchesType tf s).mergeSort
      fun a b => decide (b.recorded_at ≤ a.recorded_at) := List.mem_mergeSort.mpr hrf
  exact decryptRows_mem_ok hrows hrm (by rw [hp]; simp [decrypt])

/-- C2: encrypt-then-store followed by load-and-decrypt round-trips.
When the triple is fresh and every stored row of the owner was encrypted
under the session key, save_record inserts the encrypted payload and
load_records, with or without the matching record_type filter, returns a
record with that owner, record_type, recorded_at and exactly the saved
payload fields. -/
theorem save_then_load_roundtrip (db : DB) (owner rt rat : String) (payload : Payload)
    (key : Nat) (now : String)
    (hnodup : has_duplicate db owner rt rat none = false)
    (hkeys : ∀ r ∈ db.records, r.owner = owner →
      ∃ p, r.payload_encrypted = Ciphertext.token key p) :
    ∃ db', save_record owner rt rat payload key none now db = Except.ok (db', db.nextId) ∧
      (∃ rows, load_records owner key none db' = Except.ok rows ∧
        ∃ x ∈ rows, x.owner = owner ∧ x.record_type = rt ∧ x.recorded_at = rat ∧
          x.payload = payload) ∧
      (∃ rows, load_records owner key (some rt) db' = Except.ok rows ∧
        ∃ x ∈ rows, x.owner = owner ∧ x.record_type = rt ∧ x.recorded_at = rat ∧
          x.payload = payload) := by
  have hany : (db.records.any fun r =>
      r.owner == owner && r.record_type == rt && r.recorded_at == rat) = false := by
    simpa [has_duplicate] using hnodup
  have hall : ∀ s ∈ db.records ++
      [{ id := db.nextId, owner := owner, record_type := rt, recorded_at := rat,
         payload_encrypted := Ciphertext.token key payload,
         created_at := now, updated_at := now }],
      s.owner = owner → ∃ q, decrypt key s.payload_encrypted = Except.ok q := by
    intro s hs hsw
    rcases List.mem_append.mp hs with hs1 | hs2
    · obtain ⟨p, hp⟩ := hkeys s hs1 hsw
      exact ⟨p, by rw [hp]; simp [decrypt]⟩
    · have hse := List.mem_singleton.mp hs2
      subst hse
      exact ⟨payload, by simp [decrypt]⟩
  have key_step : ∀ tf : Option String,
      matchesType tf { id := db.nextId, owner := owner, record_type := rt, recorded_at := rat,
                       payload_encrypted := Ciphertext.token key payload,
                       created_at := now, updated_at := now } = true →
      ∃ rows, load_records owner key tf { db with
                                          records := db.records ++
                                            [{ id := db.nextId, owner := owner,
                                               record_type := rt, recorded_at := rat,
                                               payload_encrypted := Ciphertext.token key payload,
                                               created_at := now, updated_at := now }],
                                          nextId := db.nextId + 1 } = Except.ok rows ∧
        ∃ x ∈ rows, x.owner = owner ∧ x.record_type = rt ∧ x.recorded_at = rat ∧
          x.payload = payload := by
    intro tf htf
    obtain ⟨rows, hload, hmemrow⟩ :=
      load_records_contains
        { db with
          records := db.records ++
            [{ id := db.nextId, owner := owner, record_type := rt, recorded_at := rat,
               payload_encrypted := Ciphertext.token key payload,
               created_at := now, updated_at := now }],
          nextId := db.nextId + 1 } owner key tf
        { id := db.nextId, owner := owner, record_type := rt, recorded_at := rat,
          payload_encrypted := Ciphertext.token key payload,
          created_at := now, updated_at := now } payload
        (List.mem_append_right _ (List.mem_singleton.mpr rfl)) rfl htf rfl hall
    exact ⟨rows, hload, mkLoaded _ payload, hmemrow, rfl, rfl, rfl, rfl⟩
  refine ⟨{ db with
      records := db.records ++
        [{ id := db.nextId, owner := owner, record_type := rt, recorded_at := rat,
           payload_encrypted := Ciphertext.token key payload,
           created_at := now, updated_at := now }],
      nextId := db.nextId + 1 }, ?_, ?_, ?_⟩
  · simp [save_record, hany, encrypt]
  · exact key_step none (by simp [matchesType, truthy])
  · exact key_step (some rt) (by by_cases hrt : rt = "" <;> simp [matchesType, truthy, hrt])

/-- Witness for C2: saving glucose value 90 into an empty store under
key 7 and loading it back, unfiltered and filtered. -/
theorem save_then_load_roundtrip_witness :
    ∃ db', save_record "p1" "glucose" "2024-01-01T08:00:00" [("value_mg_dl", Json.num 90)] 7
        none "2024-01-05T00:00:00" { records := [], settings := [], nextId := 1 } =
        Except.ok (db', 1) ∧
      (∃ rows, load_records "p1" 7 none db' = Except.ok rows ∧
        ∃ x ∈ rows, x.owner = "p1" ∧ x.record_type = "glucose" ∧
          x.recorded_at = "2024-01-01T08:00:00" ∧ x.payload = [("value_mg_dl", Json.num 90)]) ∧
      (∃ rows, load_records "p1" 7 (some "glucose") db' = Except.ok rows ∧
        ∃ x ∈ rows, x.owner = "p1" ∧ x.record_type = "glucose" ∧
          x.recorded_at = "2024-01-01T08:00:00" ∧ x.payload = [("value_mg_dl", Json.num 90)]) :=
  save_then_load_roundtrip { records := [], settings := [], nextId := 1 } "p1" "glucose"
    "2024-01-01T08:00:00" [("value_mg_dl", Json.num 90)] 7 "2024-01-05T00:00:00" rfl
    (fun r hr => absurd hr (List.not_mem_nil r))

/-- C6: has_duplicate detects exactly the stored records carrying the
given (owner, record_type, recorded_at) triple; with exclude_id = i the
record with id i itself is ignored, so a record keeping its own triple
passes while reusing the triple of any other record is reported. -/
theorem has_duplicate_characterization (db : DB) (o rt rat : String) :
    (has_duplicate db o rt rat none = true ↔
      ∃ r ∈ db.records, r.owner = o ∧ r.record_type = rt ∧ r.recorded_at = rat) ∧
    ∀ i : Nat, (has_duplicate db o rt rat (some i) = true ↔
      ∃ r ∈ db.records,
        (r.owner = o ∧ r.record_type = rt ∧ r.recorded_at = rat) ∧ r.id ≠ i) := by
  constructor
  · simp [has_duplicate, List.any_eq_true, and_assoc]
  · intro i
    simp [has_duplicate, List.any_eq_true, and_assoc]

/-- C10: save_record with a record_id matching no stored row updates
nothing, raises nothing, and still returns the supplied record_id. -/
theorem save_record_update_missing_id (db : DB) (owner rt rat : String) (payload : Payload)
    (key : Nat) (now : String) (rid : Nat)
    (h : ∀ r ∈ db.records, r.id ≠ rid) :
    save_record owner rt rat payload key (some rid) now db = Except.ok (db, rid) := by
  have hany : (db.records.any fun r => r.id == rid) = false := by
    simp only [List.any_eq_false, beq_iff_eq]
    exact h
  simp [save_record, hany]

/-- Witness for C10: updating id 5 in a table holding only id 1 is a
silent no-op returning 5. -/
theorem save_record_update_missing_id_witness :
    save_record "p1" "glucose" "2024-01-01T08:00:00" [] 7 (some 5) "now"
      { records :=
          [{ id := 1, owner := "p1", record_type := "glucose",
             recorded_at := "2024-01-02T08:00:00",
             payload_encrypted := Ciphertext.token 7 [], created_at := "c", updated_at := "u" }],
        settings := [], nextId := 2 } =
      Except.ok
        ({ records :=
             [{ id := 1, owner := "p1", record_type := "glucose",
                recorded_at := "2024-01-02T08:00:00",
                payload_encrypted := Ciphertext.token 7 [], created_at := "c",
                updated_at := "u" }],
           settings := [], nextId := 2 }, 5) :=
  save_record_update_missing_id _ "p1" "glucose" "2024-01-01T08:00:00" [] 7 "now" 5
    (by decide)

/-- C7 counterexample: db.delete_record guards the owner clause with
Python truthiness, so the supplied owner B = "" (which differs from the
true owner "alice") drops the owner restriction and the record is
deleted instead of persisting. -/
theorem delete_record_empty_owner_counterexample :
    ("" : String) ≠ "alice" ∧
    (delete_record 1 (some "")
      { records :=
          [{ id := 1, owner := "alice", record_type := "glucose",
             recorded_at := "2024-01-01T08:00:00",
             payload_encrypted := Ciphertext.token 7 [("value_mg_dl", Json.num 90)],
             created_at := "c", updated_at := "u" }],
        settings := [], nextId := 2 }).records = [] := by
  constructor
  · decide
  · rfl

/-- C7 amended: for every stored record whose true owner is A and every
supplied non-empty owner argument B with B ≠ A, delete_record is a
no-op: the database, hence every stored record and every later
load_records result, is unchanged. -/
theorem delete_record_cross_owner_noop (db : DB) (rid : Nat) (A B : String)
    (hB : B ≠ "") (hAB : B ≠ A)
    (hA : ∀ r ∈ db.records, r.id = rid → r.owner = A) :
    delete_record rid (some B) db = db := by
  have htr : truthy (some B) = true := by simp [truthy, hB]
  have hkeep : ∀ r ∈ db.records,
      (!(r.id == rid && (!truthy (some B) || r.owner == (some B).getD ""))) = true := by
    intro r hr
    by_cases hid : r.id = rid
    · have hown : r.owner = A := hA r hr hid
      have hne : r.owner ≠ B := by
        rw [hown]
        exact fun h => hAB h.symm
      simp [hid, htr, hne]
    · simp [hid]
  have hfilter : db.records.filter
      (fun r => !(r.id == rid && (!truthy (some B) || r.owner == (some B).getD ""))) =
      db.records := List.filter_eq_self.mpr hkeep
  show { db with records := db.records.filter (fun r =>
           !(r.id == rid && (!truthy (some B) || r.owner == (some B).getD ""))) } = db
  rw [hfilter]

/-- Witness for the amended C7: deleting id 1 as bob leaves the record of
alice untouched. -/
theorem delete_record_cross_owner_noop_witness :
    delete_record 1 (some "bob")
      { records :=
          [{ id := 1, owner := "alice", record_type := "glucose",
             recorded_at := "2024-01-01T08:00:00",
             payload_encrypted := Ciphertext.token 7 [("value_mg_dl", Json.num 90)],
             created_at := "c", updated_at := "u" }],
        settings := [], nextId := 2 } =
      { records :=
          [{ id := 1, owner := "alice", record_type := "glucose",
             recorded_at := "2024-01-01T08:00:00",
             payload_encrypted := Ciphertext.token 7 [("value_mg_dl", Json.num 90)],
             created_at := "c", updated_at := "u" }],
        settings := [], nextId := 2 } :=
  delete_record_cross_owner_noop _ 1 "alice" "bob" (by decide) (by decide) (by decide)

/-- C4 counterexample: the stored settings key is built by string
concatenation, so the unscoped key "user:alice:target" collides with the
alice-scoped key "target", an owner-scoped write with the empty owner
collides with the unscoped write of the same key, and an unscoped
set_setting can overwrite the value an owner-scoped get_setting reads. -/
theorem scoped_key_collision_counterexample :
    scoped_key "user:alice:target" none = scoped_key "target" (some "alice") ∧
    scoped_key "target" none = scoped_key "target" (some "") ∧
    get_setting "target" none (some "alice")
      (set_setting "user:alice:target" "overwritten" none
        { records := [], settings := [("user:alice:target", "orig")], nextId := 1 }) =
      some "overwritten" := by
  refine ⟨?_, ?_, ?_⟩ <;> decide

/-- C4 amended: when the unscoped logical key does not start with the
five characters of the "user:" namespace and the owner is non-empty, the
unscoped stored key is distinct from every owner-scoped stored key, and
an unscoped set_setting cannot change what an owner-scoped get_setting
returns. -/
theorem scoped_key_no_collision (k k' o : String)
    (hk : k.data.take 5 ≠ "user:".data) (ho : o ≠ "") :
    scoped_key k none ≠ scoped_key k' (some o) ∧
    ∀ (db : DB) (v : String) (dflt : Option String),
      get_setting k' dflt (some o) (set_setting k v none db) =
        get_setting k' dflt (some o) db := by
  have hsk : scoped_key k none = k := by simp [scoped_key, truthy]
  have htr : truthy (some o) = true := by simp [truthy, ho]
  have hsk' : scoped_key k' (some o) = "user:" ++ o ++ ":" ++ k' := by
    simp [scoped_key, htr]
  have hne : scoped_key k none ≠ scoped_key k' (some o) := by
    rw [hsk, hsk']
    intro he
    apply hk
    rw [he]
    have hdata : ("user:" ++ o ++ ":" ++ k').data =
        "user:".data ++ (o.data ++ (":".data ++ k'.data)) := by
      simp [String.data_append, List.append_assoc]
    rw [hdata]
    have h5 : ("user:".data).length = 5 := by decide
    rw [← h5, List.take_left]
  refine ⟨hne, ?_⟩
  intro db v dflt
  have hfind : ∀ s : List (String × String),
      (upsertSetting s (scoped_key k none) v).find?
        (fun p => p.1 == scoped_key k' (some o)) =
      s.find? (fun p => p.1 == scoped_key k' (some o)) := by
    intro s
    have e1 : (scoped_key k none == scoped_key k' (some o)) = false := by
      simp only [beq_eq_false_iff_ne, ne_eq]
      exact hne
    induction s with
    | nil =>
      simp only [upsertSetting, List.find?_cons, e1, List.find?_nil]
    | cons hd tl ih =>
      by_cases hh : (hd.1 == scoped_key k none) = true
      · have hhd : hd.1 = scoped_key k none := beq_iff_eq.mp hh
        have e2 : (hd.1 == scoped_key k' (some o)) = false := by
          rw [hhd]
          exact e1
        simp only [upsertSetting, if_pos hh, List.find?_cons, e1, e2]
      · simp only [upsertSetting, if_neg hh, List.find?_cons]
        cases hp : (hd.1 == scoped_key k' (some o))
        · simp only [hp]
          exact ih
        · simp only [hp]
  simp only [get_setting, set_setting]
  rw [hfind]

/-- Witness for the amended C4: the unscoped key "target" is stored under
a different key than the alice-scoped "target", and writing it leaves the
alice-scoped read unchanged. -/
theorem scoped_key_no_collision_witness :
    scoped_key "target" none ≠ scoped_key "target" (some "alice") ∧
    get_setting "target" (some "fallback") (some "alice")
      (set_setting "target" "v" none
        { records := [], settings := [("user:alice:target", "orig")], nextId := 1 }) =
      get_setting "target" (some "fallback") (some "alice")
        { records := [], settings := [("user:alice:target", "orig")], nextId := 1 } :=
  ⟨(scoped_key_no_collision "target" "target" "alice" (by decide) (by decide)).1,
   (scoped_key_no_collision "target" "target" "alice" (by decide) (by decide)).2
     { records := [], settings := [("user:alice:target", "orig")], nextId := 1 }
     "v" (some "fallback")⟩

/-- C5: the share bundle embeds expires_at = now + valid_hours (in
seconds) inside the encrypted token; with the returned key the token
decrypts, the reader returns the original data when opened before the
expiry instant, and fails with the expiry error when opened after it,
even though decryption itself succeeded. -/
theorem share_bundle_expiry (data : Payload) (valid_hours now t : Int) (freshKey : Nat)
    (hpos : 0 < valid_hours) :
    decrypt (build_encrypted_share_payload data valid_hours now freshKey).1
        (build_encrypted_share_payload data valid_hours now freshKey).2 =
      Except.ok { expires_at := now + 3600 * valid_hours, data := data } ∧
    (t < now + 3600 * valid_hours →
      open_share_bundle (build_encrypted_share_payload data valid_hours now freshKey).1
        (build_encrypted_share_payload data valid_hours now freshKey).2 t =
        Except.ok data) ∧
    (now + 3600 * valid_hours < t →
      open_share_bundle (build_encrypted_share_payload data valid_hours now freshKey).1
        (build_encrypted_share_payload data valid_hours now freshKey).2 t =
        Except.error ShareOpenError.expired) := by
  refine ⟨?_, ?_, ?_⟩
  · simp [build_encrypted_share_payload, encrypt, decrypt]
  · intro ht
    have hnot : ¬ (now + 3600 * valid_hours < t) := by omega
    simp [build_encrypted_share_payload, encrypt, decrypt, open_share_bundle, hnot]
  · intro ht
    simp [build_encrypted_share_payload, encrypt, decrypt, open_share_bundle, ht]

/-- Witness for C5: a bundle valid for one hour opens at t = 100 seconds
and is refused at t = 7200 seconds. -/
theorem share_bundle_expiry_witness :
    open_share_bundle (build_encrypted_share_payload [("x", Json.num 1)] 1 0 5).1
        (build_encrypted_share_payload [("x", Json.num 1)] 1 0 5).2 100 =
      Except.ok [("x", Json.num 1)] ∧
    open_share_bundle (build_encrypted_share_payload [("x", Json.num 1)] 1 0 5).1
        (build_encrypted_share_payload [("x", Json.num 1)] 1 0 5).2 7200 =
      Except.error ShareOpenError.expired :=
  ⟨(share_bundle_expiry [("x", Json.num 1)] 1 0 100 5 (by decide)).2.1 (by decide),
   (share_bundle_expiry [("x", Json.num 1)] 1 0 7200 5 (by decide)).2.2 (by decide)⟩

/-- C8: verifying a PIN against the hash derived from it and the same
salt succeeds, and verifying any different PIN against that hash fails,
for every salt generate_salt can produce. -/
theorem verify_pin_roundtrip (S T : String) :
    verify_pin S T (hash_pin S T) = true ∧
    ∀ S', S' ≠ S → verify_pin S' T (hash_pin S T) = false := by
  constructor
  · simp [verify_pin, compare_digest, hash_pin]
  · intro S' h
    have hne : ({ pin := S', salt := T } : PinHash) ≠ { pin := S, salt := T } := by
      intro he
      exact h (congrArg PinHash.pin he)
    simp [verify_pin, compare_digest, hash_pin, hne]

/-- Witness for C8 at concrete PINs and salt. -/
theorem verify_pin_roundtrip_witness :
    verify_pin "1234" "c2FsdA==" (hash_pin "1234" "c2FsdA==") = true ∧
    verify_pin "0000" "c2FsdA==" (hash_pin "1234" "c2FsdA==") = false :=
  ⟨(verify_pin_roundtrip "1234" "c2FsdA==").1,
   (verify_pin_roundtrip "1234" "c2FsdA==").2 "0000" (by decide)⟩

/-- C9: running init_db on a records table lacking the owner column
migrates every pre-existing row in place and in order, keeping id,
record_type, recorded_at, payload_encrypted, created_at and updated_at
and backfilling owner with the sentinel "legacy"; running init_db on any
table again afterwards changes nothing. -/
theorem init_db_migration :
    (∀ rows : List LegacyRecord, ∃ rows',
      init_db (RecordsTable.legacy rows) = RecordsTable.current rows' ∧
      List.Forall₂ (fun (l : LegacyRecord) (c : StoredRecord) =>
        c.id = l.id ∧ c.owner = "legacy" ∧ c.record_type = l.record_type ∧
        c.recorded_at = l.recorded_at ∧ c.payload_encrypted = l.payload_encrypted ∧
        c.created_at = l.created_at ∧ c.updated_at = l.updated_at) rows rows') ∧
    ∀ t : RecordsTable, init_db (init_db t) = init_db t := by
  constructor
  · intro rows
    refine ⟨rows.map migrateLegacyRow, rfl, ?_⟩
    induction rows with
    | nil => exact List.Forall₂.nil
    | cons r rs ih => exact List.Forall₂.cons ⟨rfl, rfl, rfl, rfl, rfl, rfl, rfl⟩ ih
  · intro t
    cases t <;> rfl

end GlucosaStore
